import Mathlib

/-!
Verification of `verl/trainer/eval_on_data.py`.

The file embeds the two interesting pieces of the script:
* `load_sharded_model` — discovery and consolidation of FSDP checkpoint
  shards named `model_world_size_<W>_rank_<R>.pt`;
* the evaluation loop of `main` — per-batch reward scoring, data-source
  label accumulation, and the final per-data-source mean aggregation.

Tensors are modelled shallowly as a list of dimensions plus row-major flat
data over `Int`; scalar reward values are modelled as rationals `ℚ`
(abstracting the floating-point arithmetic of the host runtime).  A
checkpoint directory is a finite association of file names to shard
contents.  Fallible operations return `Except`/`Option`.
-/

namespace EvalOnData

/-! ### Association lists

Python dicts are modelled as insertion-ordered association lists.
`lookupA` finds the first binding of a key; `assocAppend` models
`defaultdict(list)` style accumulation: append to the existing binding's
list, or create a fresh singleton binding at the end (Python dict
insertion order). -/

def lookupA {β : Type} : List (String × β) → String → Option β
  | [], _ => none
  | kv :: rest, k => if kv.1 = k then some kv.2 else lookupA rest k

def assocAppend {β : Type} (sd : List (String × List β)) (k : String) (v : β) :
    List (String × List β) :=
  if (lookupA sd k).isSome then
    sd.map (fun kv => if kv.1 = k then (kv.1, kv.2 ++ [v]) else kv)
  else
    sd ++ [(k, [v])]

theorem lookupA_append {β : Type} (l₁ l₂ : List (String × β)) (k : String) :
    lookupA (l₁ ++ l₂) k =
      match lookupA l₁ k with
      | some v => some v
      | none => lookupA l₂ k := by
  induction l₁ with
  | nil => simp [lookupA]
  | cons kv rest ih =>
      by_cases h : kv.1 = k <;> simp [lookupA, h, ih]

theorem lookupA_map_modify {β : Type} (sd : List (String × List β)) (k' k : String)
    (g : List β → List β) :
    lookupA (sd.map (fun kv => if kv.1 = k' then (kv.1, g kv.2) else kv)) k =
      if k = k' then (lookupA sd k).map g else lookupA sd k := by
  induction sd with
  | nil => by_cases h : k = k' <;> simp [lookupA, h]
  | cons kv rest ih =>
      by_cases h2 : kv.1 = k
      · by_cases h1 : kv.1 = k'
        · have hk : k = k' := h2.symm.trans h1
          simp [lookupA, h1, h2, hk]
        · have hk : ¬k = k' := fun hh => h1 (h2.trans hh)
          simp [lookupA, h1, h2, hk]
      · by_cases h1 : kv.1 = k'
        · have hk : ¬k = k' := fun hh => h2 (h1.trans hh.symm)
          have hk2 : ¬k' = k := fun hh => hk hh.symm
          simp [lookupA, h1, h2, hk, hk2, ih]
        · simp [lookupA, h1, h2, ih]

theorem lookupA_assocAppend {β : Type} (sd : List (String × List β)) (k' k : String)
    (v : β) :
    lookupA (assocAppend sd k' v) k =
      if k = k' then some ((lookupA sd k').getD [] ++ [v]) else lookupA sd k := by
  unfold assocAppend
  by_cases hs : (lookupA sd k').isSome
  · rw [if_pos hs]
    refine (lookupA_map_modify sd k' k (fun vs => vs ++ [v])).trans ?_
    by_cases h : k = k'
    · subst h
      rcases ho : lookupA sd k with _ | vs
      · rw [ho] at hs; simp at hs
      · simp [ho]
    · simp [h]
  · rw [if_neg hs, lookupA_append]
    have ho : lookupA sd k' = none := by
      rcases ho : lookupA sd k' with _ | vs
      · rfl
      · rw [ho] at hs; simp at hs
    by_cases h : k = k'
    · subst h
      simp [ho, lookupA]
    · have h2 : ¬k' = k := fun hh => h hh.symm
      rcases ho2 : lookupA sd k with _ | vs <;> simp [ho2, lookupA, h, h2]

theorem lookupA_map_snd {β γ : Type} (sd : List (String × β)) (g : β → γ) (k : String) :
    lookupA (sd.map (fun kv => (kv.1, g kv.2))) k = (lookupA sd k).map g := by
  induction sd with
  | nil => simp [lookupA]
  | cons kv rest ih =>
      by_cases h : kv.1 = k <;> simp [lookupA, h, ih]

theorem lookupA_mem {β : Type} (sd : List (String × β)) (k : String) (v : β)
    (h : lookupA sd k = some v) : (k, v) ∈ sd := by
  induction sd with
  | nil => simp [lookupA] at h
  | cons kv rest ih =>
      by_cases h1 : kv.1 = k
      · obtain ⟨a, b⟩ := kv
        simp only at h1
        subst h1
        simp [lookupA] at h
        subst h
        exact List.mem_cons_self _ _
      · simp [lookupA, h1] at h
        exact List.mem_cons_of_mem _ (ih h)

/-! ### Tensors and shard values

`Tensor` models a `torch.Tensor` as its shape (`dims`) together with its
row-major flattened data.  A shard entry value is either a plain tensor, a
distributed tensor handle (which `load_sharded_model` materialises via
`.to_local()`), or some non-tensor object (`other`), on which `torch.cat`
raises `TypeError`. -/

structure Tensor where
  dims : List Nat
  data : List Int
  deriving DecidableEq

inductive Value where
  | tensor (t : Tensor)
  | dtensor (t : Tensor)
  | other (id : Nat)
  deriving DecidableEq

/-- `value.to_local() if hasattr(value, "to_local") else value` (lines 52-53):
a distributed tensor is materialised to its local tensor, anything else is
kept as is. -/
def toLocal : Value → Value
  | .dtensor t => .tensor t
  | v => v

def asTensor : Value → Option Tensor
  | .tensor t => some t
  | _ => none

def asTensors : List Value → Option (List Tensor)
  | [] => some []
  | v :: vs =>
      match asTensor v, asTensors vs with
      | some t, some ts => some (t :: ts)
      | _, _ => none

/-- `torch.cat(ts, dim=0)`: requires a non-empty list of tensors, each of
dimension at least one, all agreeing on every dimension but the first
(`RuntimeError` otherwise, modelled as `none`).  The result stacks the
leading dimensions and concatenates the row-major data. -/
def catDims0 : List Tensor → Option Tensor
  | [] => none
  | t :: ts =>
      match t.dims with
      | [] => none
      | d0 :: tl =>
          if ts.all (fun u => !u.dims.isEmpty && decide (u.dims.tail = tl)) then
            some ⟨(d0 + (ts.map (fun u => u.dims.headD 0)).sum) :: tl,
                  t.data ++ (ts.map Tensor.data).flatten⟩
          else none

/-- Lines 56-64: `torch.cat(state_dict[key], dim=0)` guarded by
`except (RuntimeError, TypeError)`, falling back to the first shard's
value.  `torch.cat` raises `TypeError` when some value is not a tensor and
`RuntimeError` when the shapes are incompatible (or a tensor is
zero-dimensional); both are caught. -/
def consolidateValues (vs : List Value) : Value :=
  match asTensors vs with
  | some ts =>
      match catDims0 ts with
      | some t => .tensor t
      | none => vs.headD (.other 0)
  | none => vs.headD (.other 0)

def consolidateAll (sd : List (String × List Value)) : List (String × Value) :=
  sd.map (fun kv => (kv.1, consolidateValues kv.2))

/-! ### Shard file names

The checkpoint directory is scanned with the glob
`model_world_size_*_rank_*.pt` (line 24) and each matching name is then
prefix-matched against the regex
`model_world_size_(\d+)_rank_(\d+)\.pt` (lines 28-33). -/

/-- Strips `p` from the front of `l`; `none` if `p` is not a prefix. -/
def stripPref : List Char → List Char → Option (List Char)
  | [], l => some l
  | _ :: _, [] => none
  | p :: ps, c :: cs => if p = c then stripPref ps cs else none

/-- Strips `s` from the back of `l`; `none` if `s` is not a suffix. -/
def stripSuff (s l : List Char) : Option (List Char) :=
  (stripPref s.reverse l.reverse).map List.reverse

/-- `needle` occurs as a contiguous sublist of `hay`. -/
def containsSub (needle : List Char) : List Char → Bool
  | [] => needle.isEmpty
  | c :: rest => (stripPref needle (c :: rest)).isSome || containsSub needle rest

/-- Glob match for `model_world_size_*_rank_*.pt`: the name decomposes as
`model_world_size_` ++ a ++ `_rank_` ++ b ++ `.pt`, i.e. after removing
the literal prefix and the literal `.pt` suffix the remainder contains
`_rank_`. -/
def globMatch (name : String) : Bool :=
  match stripPref "model_world_size_".data name.data with
  | none => false
  | some r =>
      match stripSuff ".pt".data r with
      | none => false
      | some mid => containsSub "_rank_".data mid

def digitsToNat (ds : List Char) : Nat :=
  ds.foldl (fun a c => 10 * a + (c.toNat - 48)) 0

/-- Prefix match (`re.match`) of `model_world_size_(\d+)_rank_(\d+)\.pt`,
returning the two captured numbers.  Greedy `\d+` is a maximal digit run:
shorter runs cannot be followed by `_`/`.`, so no backtracking case is
lost.  Because `re.match` only anchors at the start, trailing characters
after `.pt` are allowed. -/
def parseShardName (name : String) : Option (Nat × Nat) :=
  match stripPref "model_world_size_".data name.data with
  | none => none
  | some r1 =>
      let ws := r1.takeWhile Char.isDigit
      let r2 := r1.dropWhile Char.isDigit
      if ws.isEmpty then none
      else
        match stripPref "_rank_".data r2 with
        | none => none
        | some r3 =>
            let rk := r3.takeWhile Char.isDigit
            let r4 := r3.dropWhile Char.isDigit
            if rk.isEmpty then none
            else if (stripPref ".pt".data r4).isSome then
              some (digitsToNat ws, digitsToNat rk)
            else none

/-- `f"model_world_size_{world_size}_rank_{rank}.pt"` (line 44). -/
def shardFileName (w r : Nat) : String :=
  "model_world_size_" ++ toString w ++ "_rank_" ++ toString r ++ ".pt"

/-! ### Checkpoint directories and `load_sharded_model` -/

/-- One shard file's contents: `torch.load` yields a dict from parameter
name to value; dict keys are unique, but none of the lemmas below rely on
that. -/
abbrev Shard := List (String × Value)

/-- A checkpoint directory: file names with their loadable contents. -/
structure Dir where
  entries : List (String × Shard)

def lookupFile (d : Dir) (name : String) : Option Shard :=
  lookupA d.entries name

/-- Line 24: `checkpoint_dir.glob("model_world_size_*_rank_*.pt")`. -/
def findShardFiles (d : Dir) : List String :=
  (d.entries.map Prod.fst).filter globMatch

/-- Lines 28-33: the world sizes embedded in the regex-matching shard
names (with multiplicity; the Python `set` is modelled by `dedup`). -/
def shardWorldSizes (d : Dir) : List Nat :=
  (findShardFiles d).filterMap (fun n => (parseShardName n).map Prod.fst)

/-- Lines 35-40: the unique world size, if there is exactly one. -/
def worldSizeOf (d : Dir) : Option Nat :=
  match (shardWorldSizes d).dedup with
  | [w] => some w
  | _ => none

inductive LoadError where
  | noCheckpointFiles
  | inconsistentWorldSize
  | missingShard (w r : Nat)
  deriving DecidableEq

/-- Lines 51-54: fold one shard dict into the accumulating
`state_dict = defaultdict(list)`, materialising distributed values. -/
def loadShard : List (String × List Value) → Shard → List (String × List Value)
  | sd, [] => sd
  | sd, kv :: rest => loadShard (assocAppend sd kv.1 (toLocal kv.2)) rest

/-- Lines 43-54: iterate the given ranks in order, requiring each
`model_world_size_{w}_rank_{r}.pt` to exist. -/
def loadRanksGo (d : Dir) (w : Nat) :
    List Nat → List (String × List Value) →
      Except LoadError (List (String × List Value))
  | [], sd => .ok sd
  | r :: rs, sd =>
      match lookupFile d (shardFileName w r) with
      | none => .error (.missingShard w r)
      | some shard => loadRanksGo d w rs (loadShard sd shard)

/-- `load_sharded_model` (lines 20-66): discover shard files, determine
the unique world size, load every rank's shard in rank order, and
consolidate each parameter's values. -/
def load_sharded_model (d : Dir) : Except LoadError (List (String × Value)) :=
  if findShardFiles d = [] then .error .noCheckpointFiles
  else
    match worldSizeOf d with
    | some w => (loadRanksGo d w (List.range w) []).map consolidateAll
    | none => .error .inconsistentWorldSize

/-! ### Characterising the gathered state dict -/

/-- The values rank `r`'s shard file contributes for parameter `k`, in
file order, after `to_local` materialisation. -/
def rankVals (d : Dir) (w r : Nat) (k : String) : List Value :=
  match lookupFile d (shardFileName w r) with
  | some shard => (shard.filter (fun kv => decide (kv.1 = k))).map (fun kv => toLocal kv.2)
  | none => []

/-- All values gathered for parameter `k`, ranks in increasing order. -/
def shardValuesFor (d : Dir) (w : Nat) (k : String) : List Value :=
  ((List.range w).map (fun r => rankVals d w r k)).flatten

def lookupVals (sd : List (String × List Value)) (k : String) : List Value :=
  (lookupA sd k).getD []

/-- No binding of the gathered state dict has an empty value list. -/
def NoEmptyVals (sd : List (String × List Value)) : Prop :=
  ∀ k vs, lookupA sd k = some vs → vs ≠ []

theorem noEmptyVals_assocAppend (sd : List (String × List Value)) (k' : String)
    (v : Value) (h : NoEmptyVals sd) : NoEmptyVals (assocAppend sd k' v) := by
  intro k vs hl
  rw [lookupA_assocAppend] at hl
  by_cases hk : k = k'
  · rw [if_pos hk] at hl
    have : (lookupA sd k').getD [] ++ [v] = vs := by injection hl
    rw [← this]
    simp
  · rw [if_neg hk] at hl
    exact h k vs hl

theorem noEmptyVals_loadShard (shard : Shard) :
    ∀ sd, NoEmptyVals sd → NoEmptyVals (loadShard sd shard) := by
  induction shard with
  | nil => intro sd h; exact h
  | cons kv rest ih =>
      intro sd h
      exact ih _ (noEmptyVals_assocAppend sd kv.1 (toLocal kv.2) h)

theorem lookupVals_loadShard (shard : Shard) :
    ∀ (sd : List (String × List Value)) (k : String),
      lookupVals (loadShard sd shard) k =
        lookupVals sd k ++
          (shard.filter (fun kv => decide (kv.1 = k))).map (fun kv => toLocal kv.2) := by
  induction shard with
  | nil => intro sd k; simp [loadShard]
  | cons kv rest ih =>
      intro sd k
      show lookupVals (loadShard (assocAppend sd kv.1 (toLocal kv.2)) rest) k = _
      rw [ih]
      unfold lookupVals
      rw [lookupA_assocAppend]
      by_cases h : k = kv.1
      · subst h
        simp [List.filter_cons, List.append_assoc]
      · have h2 : ¬kv.1 = k := fun hh => h hh.symm
        simp [h, h2, List.filter_cons]

theorem loadRanksGo_ok_lookupVals (d : Dir) (w : Nat) :
    ∀ (rs : List Nat) (sd sd' : List (String × List Value)),
      loadRanksGo d w rs sd = .ok sd' → ∀ k,
        lookupVals sd' k = lookupVals sd k ++ ((rs.map (fun r => rankVals d w r k)).flatten) := by
  intro rs
  induction rs with
  | nil =>
      intro sd sd' h k
      have : sd = sd' := by
        simpa [loadRanksGo] using h
      simp [this]
  | cons r rest ih =>
      intro sd sd' h k
      unfold loadRanksGo at h
      rcases hf : lookupFile d (shardFileName w r) with _ | shard
      · rw [hf] at h; exact absurd h (by simp)
      · rw [hf] at h
        rw [ih _ _ h k, lookupVals_loadShard]
        simp [rankVals, hf, List.append_assoc]

theorem loadRanksGo_noEmpty (d : Dir) (w : Nat) :
    ∀ (rs : List Nat) (sd sd' : List (String × List Value)),
      NoEmptyVals sd → loadRanksGo d w rs sd = .ok sd' → NoEmptyVals sd' := by
  intro rs
  induction rs with
  | nil =>
      intro sd sd' hsd h
      have : sd = sd' := by simpa [loadRanksGo] using h
      exact this ▸ hsd
  | cons r rest ih =>
      intro sd sd' hsd h
      unfold loadRanksGo at h
      rcases hf : lookupFile d (shardFileName w r) with _ | shard
      · rw [hf] at h; exact absurd h (by simp)
      · rw [hf] at h
        exact ih _ _ (noEmptyVals_loadShard shard sd hsd) h

theorem loadRanksGo_total (d : Dir) (w : Nat) :
    ∀ (rs : List Nat) (sd : List (String × List Value)),
      (∀ r, r ∈ rs → (lookupFile d (shardFileName w r)).isSome) →
      ∃ sd', loadRanksGo d w rs sd = .ok sd' := by
  intro rs
  induction rs with
  | nil => intro sd _; exact ⟨sd, rfl⟩
  | cons r rest ih =>
      intro sd hall
      rcases hf : lookupFile d (shardFileName w r) with _ | shard
      · have := hall r (List.mem_cons_self _ _)
        rw [hf] at this
        simp at this
      · obtain ⟨sd', hsd'⟩ := ih (loadShard sd shard)
          (fun r' hr' => hall r' (List.mem_cons_of_mem _ hr'))
        exact ⟨sd', by unfold loadRanksGo; rw [hf]; exact hsd'⟩

theorem loadRanksGo_missing (d : Dir) (w : Nat) :
    ∀ (rs : List Nat) (sd : List (String × List Value)),
      (∃ r, r ∈ rs ∧ lookupFile d (shardFileName w r) = none) →
      ∃ r2, r2 ∈ rs ∧ loadRanksGo d w rs sd = .error (.missingShard w r2) := by
  intro rs
  induction rs with
  | nil => intro sd h; obtain ⟨r, hr, _⟩ := h; simp at hr
  | cons r rest ih =>
      intro sd h
      rcases hf : lookupFile d (shardFileName w r) with _ | shard
      · exact ⟨r, List.mem_cons_self _ _, by unfold loadRanksGo; rw [hf]⟩
      · obtain ⟨r', hr', hnone⟩ := h
        have hr'rest : r' ∈ rest := by
          rcases List.mem_cons.mp hr' with hh | hh
          · subst hh; rw [hf] at hnone; exact absurd hnone (by simp)
          · exact hh
        obtain ⟨r2, hr2, hgo⟩ := ih (loadShard sd shard) ⟨r', hr'rest, hnone⟩
        exact ⟨r2, List.mem_cons_of_mem _ hr2, by unfold loadRanksGo; rw [hf]; exact hgo⟩

/-- Pointwise characterisation of a successful `load_sharded_model`: the
consolidated dict binds `k` exactly when some rank in `[0, w)` contributed
a value for `k`, and then to the consolidation of those values in rank
order.  Files whose name is not `model_world_size_{w}_rank_{r}.pt` for
some `r < w` contribute nothing. -/
theorem load_ok_lookup (d : Dir) (w : Nat) (out : List (String × Value))
    (hok : load_sharded_model d = .ok out) (hw : worldSizeOf d = some w)
    (k : String) :
    lookupA out k =
      if shardValuesFor d w k = [] then none
      else some (consolidateValues (shardValuesFor d w k)) := by
  unfold load_sharded_model at hok
  by_cases hne : findShardFiles d = []
  · rw [if_pos hne] at hok
    exact absurd hok (by simp)
  · rw [if_neg hne, hw] at hok
    have hok2 : Except.map consolidateAll (loadRanksGo d w (List.range w) []) =
        .ok out := hok
    rcases hgo : loadRanksGo d w (List.range w) [] with e | sd'
    · rw [hgo] at hok2
      exact absurd hok2 (by simp [Except.map])
    · rw [hgo] at hok2
      have hout : out = consolidateAll sd' := by
        simp [Except.map] at hok2
        exact hok2.symm
      have hv : lookupVals sd' k = shardValuesFor d w k := by
        have := loadRanksGo_ok_lookupVals d w (List.range w) [] sd' hgo k
        simpa [lookupVals, lookupA, shardValuesFor] using this
      have hnoe : NoEmptyVals sd' :=
        loadRanksGo_noEmpty d w (List.range w) [] sd'
          (fun k vs h => by simp [lookupA] at h) hgo
      rw [hout]
      unfold consolidateAll
      rw [lookupA_map_snd]
      rcases hl : lookupA sd' k with _ | vs
      · have hzero : shardValuesFor d w k = [] := by
          rw [← hv]; simp [lookupVals, hl]
        simp [hzero]
      · have hne2 : vs ≠ [] := hnoe k vs hl
        have hveq : vs = shardValuesFor d w k := by
          rw [← hv]; simp [lookupVals, hl]
        rw [if_neg (hveq ▸ hne2)]
        simp [← hveq]

theorem worldSizeOf_eq_none_of_two (d : Dir)
    (h : 2 ≤ (shardWorldSizes d).dedup.length) : worldSizeOf d = none := by
  unfold worldSizeOf
  generalize hg : (shardWorldSizes d).dedup = L at h ⊢
  rcases L with _ | ⟨a, _ | ⟨b, l⟩⟩
  · simp at h
  · simp at h
  · rfl

theorem asTensors_map_tensor (ts : List Tensor) :
    asTensors (ts.map Value.tensor) = some ts := by
  induction ts with
  | nil => rfl
  | cons t rest ih => simp [asTensors, asTensor, ih]

theorem consolidateValues_cat (vs : List Value) (ts : List Tensor) (tc : Tensor)
    (hts : asTensors vs = some ts) (hc : catDims0 ts = some tc) :
    consolidateValues vs = .tensor tc := by
  simp [consolidateValues, hts, hc]

theorem consolidateValues_fallback (vs : List Value) (ts : List Tensor)
    (hts : asTensors vs = some ts) (hc : catDims0 ts = none) :
    consolidateValues vs = vs.headD (.other 0) := by
  simp [consolidateValues, hts, hc]

theorem catDims0_eq_some (ts : List Tensor) (tc : Tensor)
    (h : catDims0 ts = some tc) :
    tc.data = (ts.map Tensor.data).flatten ∧
    tc.dims.headD 0 = (ts.map (fun u => u.dims.headD 0)).sum ∧
    ts ≠ [] := by
  cases ts with
  | nil => simp [catDims0] at h
  | cons t rest =>
      rcases hd : t.dims with _ | ⟨d0, tl⟩
      · have h2 : (none : Option Tensor) = some tc := by
          rw [← h]; simp [catDims0, hd]
        exact absurd h2 (by simp)
      · have h2 : (if rest.all (fun u => !u.dims.isEmpty && decide (u.dims.tail = tl)) then
            some (Tensor.mk ((d0 + (rest.map (fun u => u.dims.headD 0)).sum) :: tl)
              (t.data ++ (rest.map Tensor.data).flatten)) else none) = some tc := by
          rw [← h]; simp [catDims0, hd]
        by_cases hall : rest.all (fun u => !u.dims.isEmpty && decide (u.dims.tail = tl))
        · rw [if_pos hall] at h2
          have h3 : Tensor.mk ((d0 + (rest.map (fun u => u.dims.headD 0)).sum) :: tl)
              (t.data ++ (rest.map Tensor.data).flatten) = tc := by injection h2
          rw [← h3]
          refine ⟨by simp, ?_, by simp⟩
          simp [hd]
        · rw [if_neg hall] at h2; exact absurd h2 (by simp)

/-! ### Claims C1, C2, C3, C8 about `load_sharded_model` -/

/-- C1: for a checkpoint directory with a single world size `w` that loads
successfully (in particular every rank `0..w-1` has a shard file), every
parameter `k` whose per-rank values are tensors that can be concatenated
is bound in the result to the concatenation of the rank values in
increasing rank order (`shardValuesFor` enumerates `List.range w` in
order) along dimension 0: the flat data is the rank-order concatenation
and the leading dimension is the sum of the shards' leading dimensions. -/
theorem c1_load_concatenates_shards (d : Dir) (out : List (String × Value))
    (w : Nat) (k : String) (ts : List Tensor) (tc : Tensor)
    (hok : load_sharded_model d = .ok out)
    (hw : worldSizeOf d = some w)
    (hvals : shardValuesFor d w k = ts.map Value.tensor)
    (hcat : catDims0 ts = some tc) :
    lookupA out k = some (Value.tensor tc) ∧
    tc.data = (ts.map Tensor.data).flatten ∧
    tc.dims.headD 0 = (ts.map (fun u => u.dims.headD 0)).sum := by
  obtain ⟨hdata, hdim, hne⟩ := catDims0_eq_some ts tc hcat
  have hvne : shardValuesFor d w k ≠ [] := by
    rw [hvals]
    intro hcontra
    exact hne (by simpa using hcontra)
  have hchar := load_ok_lookup d w out hok hw k
  rw [if_neg hvne, hvals,
    consolidateValues_cat _ ts tc (asTensors_map_tensor ts) hcat] at hchar
  exact ⟨hchar, hdata, hdim⟩

def c1Dir : Dir :=
  ⟨[("model_world_size_2_rank_0.pt", [("w", .tensor ⟨[1, 1], [10]⟩)]),
    ("model_world_size_2_rank_1.pt", [("w", .tensor ⟨[1, 1], [20]⟩)])]⟩

/-- Witness for C1 at a two-rank directory whose parameter `w` holds
disjoint leading-dimension chunks. -/
theorem c1_witness :
    lookupA [("w", Value.tensor ⟨[2, 1], [10, 20]⟩)] "w" =
      some (Value.tensor ⟨[2, 1], [10, 20]⟩) ∧
    (Tensor.mk [2, 1] [10, 20]).data =
      ([Tensor.mk [1, 1] [10], Tensor.mk [1, 1] [20]].map Tensor.data).flatten ∧
    (Tensor.mk [2, 1] [10, 20]).dims.headD 0 =
      ([Tensor.mk [1, 1] [10], Tensor.mk [1, 1] [20]].map
        (fun u => u.dims.headD 0)).sum :=
  c1_load_concatenates_shards c1Dir [("w", Value.tensor ⟨[2, 1], [10, 20]⟩)] 2 "w"
    [⟨[1, 1], [10]⟩, ⟨[1, 1], [20]⟩] ⟨[2, 1], [10, 20]⟩ rfl rfl rfl rfl

/-- C2: `load_sharded_model` fails (returning an error, with no recovery)
in each discovery failure case: no file matches the shard glob; the
regex-matching files embed at least two distinct world sizes; or, for the
single world size `w`, some rank `r < w` has no shard file (the error
names a missing rank). -/
theorem c2_discovery_errors (d : Dir) :
    (findShardFiles d = [] → load_sharded_model d = .error .noCheckpointFiles) ∧
    (findShardFiles d ≠ [] → 2 ≤ (shardWorldSizes d).dedup.length →
      load_sharded_model d = .error .inconsistentWorldSize) ∧
    (∀ w, findShardFiles d ≠ [] → worldSizeOf d = some w →
      (∃ r, r < w ∧ lookupFile d (shardFileName w r) = none) →
      ∃ r2, r2 < w ∧ load_sharded_model d = .error (.missingShard w r2)) := by
  refine ⟨?_, ?_, ?_⟩
  · intro h
    unfold load_sharded_model
    rw [if_pos h]
  · intro hne h2
    unfold load_sharded_model
    rw [if_neg hne, worldSizeOf_eq_none_of_two d h2]
  · intro w hne hw hmiss
    obtain ⟨r, hr, hnone⟩ := hmiss
    obtain ⟨r2, hr2mem, hgo⟩ := loadRanksGo_missing d w (List.range w) []
      ⟨r, List.mem_range.mpr hr, hnone⟩
    refine ⟨r2, List.mem_range.mp hr2mem, ?_⟩
    unfold load_sharded_model
    rw [if_neg hne, hw]
    show Except.map consolidateAll (loadRanksGo d w (List.range w) []) = _
    rw [hgo]
    rfl

def c2DirA : Dir := ⟨[("optimizer.pt", [])]⟩

def c2DirB : Dir :=
  ⟨[("model_world_size_1_rank_0.pt", []), ("model_world_size_2_rank_0.pt", [])]⟩

def c2DirC : Dir :=
  ⟨[("model_world_size_3_rank_0.pt", []), ("model_world_size_3_rank_2.pt", [])]⟩

/-- Witness for C2: a directory with no glob match, one with two embedded
world sizes, and one with world size 3 but rank 1 missing. -/
theorem c2_witness :
    load_sharded_model c2DirA = .error .noCheckpointFiles ∧
    load_sharded_model c2DirB = .error .inconsistentWorldSize ∧
    (∃ r2, r2 < 3 ∧ load_sharded_model c2DirC = .error (.missingShard 3 r2)) :=
  ⟨(c2_discovery_errors c2DirA).1 rfl,
   (c2_discovery_errors c2DirB).2.1 (by decide) (by decide),
   (c2_discovery_errors c2DirC).2.2 3 (by decide) rfl ⟨1, by decide, rfl⟩⟩

/-- C3: when discovery succeeds and every rank's shard file exists,
`load_sharded_model` returns `.ok` — per-parameter concatenation failures
never raise.  A parameter whose gathered values are tensors with
shapes incompatible for `torch.cat` is bound to the first (rank-0 side)
gathered value, and every other parameter is consolidated normally. -/
theorem c3_incompatible_falls_back (d : Dir) (w : Nat)
    (hne : findShardFiles d ≠ []) (hw : worldSizeOf d = some w)
    (hranks : ∀ r, r < w → (lookupFile d (shardFileName w r)).isSome) :
    (∃ out, load_sharded_model d = .ok out) ∧
    (∀ out k vs ts, load_sharded_model d = .ok out →
      shardValuesFor d w k = vs → vs ≠ [] →
      asTensors vs = some ts → catDims0 ts = none →
      lookupA out k = some (vs.headD (.other 0)) ∧
      (∀ k2, lookupA out k2 = if shardValuesFor d w k2 = [] then none
        else some (consolidateValues (shardValuesFor d w k2)))) := by
  constructor
  · obtain ⟨sd', hgo⟩ := loadRanksGo_total d w (List.range w) []
      (fun r hr => hranks r (List.mem_range.mp hr))
    refine ⟨consolidateAll sd', ?_⟩
    unfold load_sharded_model
    rw [if_neg hne, hw]
    show Except.map consolidateAll (loadRanksGo d w (List.range w) []) = _
    rw [hgo]
    rfl
  · intro out k vs ts hok hvals hvne hts hcat
    have hchar := load_ok_lookup d w out hok hw
    refine ⟨?_, hchar⟩
    have hthis := hchar k
    rw [hvals, if_neg hvne, consolidateValues_fallback vs ts hts hcat] at hthis
    exact hthis

def c3Dir : Dir :=
  ⟨[("model_world_size_2_rank_0.pt",
      [("a", .tensor ⟨[1, 2], [5, 6]⟩), ("b", .tensor ⟨[1], [1]⟩)]),
    ("model_world_size_2_rank_1.pt",
      [("a", .tensor ⟨[1, 3], [7, 8, 9]⟩), ("b", .tensor ⟨[1], [2]⟩)])]⟩

def c3Out : List (String × Value) :=
  [("a", Value.tensor ⟨[1, 2], [5, 6]⟩), ("b", Value.tensor ⟨[2], [1, 2]⟩)]

/-- Witness for C3: parameter `a` has incompatible shapes `[1,2]`/`[1,3]`
and falls back to the rank-0 value; parameter `b` is concatenated
normally and the whole load still succeeds. -/
theorem c3_witness :
    (∃ out, load_sharded_model c3Dir = .ok out) ∧
    lookupA c3Out "a" = some (Value.tensor ⟨[1, 2], [5, 6]⟩) ∧
    lookupA c3Out "b" = some (Value.tensor ⟨[2], [1, 2]⟩) := by
  have h := c3_incompatible_falls_back c3Dir 2 (by decide) rfl (by decide)
  have h2 := h.2 c3Out "a"
    [Value.tensor ⟨[1, 2], [5, 6]⟩, Value.tensor ⟨[1, 3], [7, 8, 9]⟩]
    [⟨[1, 2], [5, 6]⟩, ⟨[1, 3], [7, 8, 9]⟩] rfl rfl (by decide) rfl rfl
  exact ⟨h.1, h2.1, (h2.2 "b").trans (by decide)⟩

/-- C8: a glob-matching file that does not match the numeric regex
contributes nothing (so a directory of only such files fails with the
inconsistent-world-size error, not the no-shards error), and on success
a parameter's consolidated value is determined exclusively by the values
found in the files `model_world_size_{w}_rank_{r}.pt` for `r < w`
(`shardValuesFor`): any other file, including those embedding a rank
`≥ w`, is ignored. -/
theorem c8_nonmatching_files_ignored (d : Dir) :
    ((∀ n, n ∈ findShardFiles d → parseShardName n = none) →
      findShardFiles d ≠ [] →
      load_sharded_model d = .error .inconsistentWorldSize) ∧
    (∀ out w k, load_sharded_model d = .ok out → worldSizeOf d = some w →
      lookupA out k = if shardValuesFor d w k = [] then none
        else some (consolidateValues (shardValuesFor d w k))) := by
  constructor
  · intro hall hne
    have hws : shardWorldSizes d = [] := by
      unfold shardWorldSizes
      rw [List.filterMap_eq_nil_iff]
      intro n hn
      rw [hall n hn]
      rfl
    have hw : worldSizeOf d = none := by
      unfold worldSizeOf
      rw [hws]
      rfl
    unfold load_sharded_model
    rw [if_neg hne, hw]
  · intro out w k hok hw
    exact load_ok_lookup d w out hok hw k

def c8DirA : Dir := ⟨[("model_world_size_x_rank_0.pt", [])]⟩

def c8DirB : Dir :=
  ⟨[("model_world_size_1_rank_0.pt", [("w", .tensor ⟨[1], [3]⟩)]),
    ("model_world_size_1_rank_5.pt", [("w", .tensor ⟨[1], [99]⟩)])]⟩

/-- Witness for C8: a directory whose only file matches the glob but not
the regex errors with the inconsistent-world-size error, and a rank-5
file in a world-size-1 checkpoint is ignored (its value 99 does not reach
the result). -/
theorem c8_witness :
    load_sharded_model c8DirA = .error .inconsistentWorldSize ∧
    load_sharded_model c8DirB = .ok [("w", Value.tensor ⟨[1], [3]⟩)] ∧
    lookupA [("w", Value.tensor ⟨[1], [3]⟩)] "w" =
      if shardValuesFor c8DirB 1 "w" = [] then none
      else some (consolidateValues (shardValuesFor c8DirB 1 "w")) :=
  ⟨(c8_nonmatching_files_ignored c8DirA).1 (by decide) (by decide),
   rfl,
   (c8_nonmatching_files_ignored c8DirB).2 [("w", Value.tensor ⟨[1], [3]⟩)] 1 "w"
     rfl rfl⟩

/-! ### The evaluation loop of `main` (lines 122-194)

The loop is parametric in its external collaborators: `gen : α → α`
stands for the pop / `generate_sequences` / `union` round trip that
attaches responses to a batch, `rf : α → List (List ℚ)` for the external
reward manager `val_reward_fn` (one per-token reward row per example),
and `dsOf : α → Option (List String)` for
`test_batch.non_tensor_batch.get("data_source", ...)`. -/

/-- Modelled from the spec: `pad_dataproto_to_divisor` (imported from
`verl.protocol` at line 14; its code is not under src/).  Pads the batch
so its example count is divisible by the required divisor and returns the
padded batch together with the number of padding examples added. -/
def pad_dataproto_to_divisor {α : Type} [Inhabited α] (b : List α) (k : Nat) :
    List α × Nat :=
  let padSize := (k - b.length % k) % k
  (b ++ List.replicate padSize default, padSize)

/-- Modelled from the spec: `unpad_dataproto` (imported from
`verl.protocol`; its code is not under src/).  Removes the `padSize`
padding examples from the end of the batch. -/
def unpad_dataproto {α : Type} (b : List α) (padSize : Nat) : List α :=
  b.take (b.length - padSize)

/-- Line 171: `reward_tensor.sum(-1)` — one scalar per example, the sum
of the example's per-token rewards. -/
def batchScores (t : List (List ℚ)) : List ℚ := t.map List.sum

/-- Lines 136-168: the batches in loader order, each after the
generation/union round trip. -/
def evalMerged {α : Type} (gen : α → α) (batches : List α) : List α :=
  batches.map gen

/-- Line 173: `reward_tensor_lst` — one reward tensor appended per batch,
in loader order. -/
def rewardTensorLst {α : Type} (gen : α → α) (rf : α → List (List ℚ))
    (batches : List α) : List (List (List ℚ)) :=
  (evalMerged gen batches).map rf

/-- Lines 174-178: `data_source_lst` — per batch, the batch's
`data_source` field if present, else `["unknown"] * reward_tensor.shape[0]`. -/
def dataSourceLst {α : Type} (gen : α → α) (rf : α → List (List ℚ))
    (dsOf : α → Option (List String)) (batches : List α) : List (List String) :=
  (evalMerged gen batches).map
    (fun b => (dsOf b).getD (List.replicate (rf b).length "unknown"))

/-- Line 180: `torch.cat(reward_tensor_lst, dim=0).sum(-1)` — the final
per-example scalar rewards.  (`torch.cat` additionally requires all
reward rows to share one width; theorems about this definition carry that
hypothesis explicitly where relevant.) -/
def finalScores {α : Type} (gen : α → α) (rf : α → List (List ℚ))
    (batches : List α) : List ℚ :=
  ((rewardTensorLst gen rf batches).flatten).map List.sum

/-- Line 181: `np.concatenate(data_source_lst, axis=0)`. -/
def finalLabels {α : Type} (gen : α → α) (rf : α → List (List ℚ))
    (dsOf : α → Option (List String)) (batches : List α) : List String :=
  (dataSourceLst gen rf dsOf batches).flatten

/-- Lines 183-188: `data_source_reward` — iterate the example indices of
the final reward tensor, appending `reward_tensor[i].item()` to the dict
entry of `data_sources[i]`. -/
def buildGroups (scores : List ℚ) (labels : List String) :
    List (String × List ℚ) :=
  (List.range scores.length).foldl
    (fun acc i => assocAppend acc (labels.getD i "") (scores.getD i 0)) []

/-- Grouping of explicit (score, label) pairs; `buildGroups` coincides
with it when the score and label arrays are aligned. -/
def groupPairs (ps : List (ℚ × String)) : List (String × List ℚ) :=
  ps.foldl (fun acc p => assocAppend acc p.2 p.1) []

/-- `np.mean`, over exact rationals. -/
def listMean (l : List ℚ) : ℚ := l.sum / l.length

/-- Lines 190-192: `metric_dict` — one `val/test_score/<data_source>`
entry per group, holding the group's mean. -/
def metricDict (groups : List (String × List ℚ)) : List (String × ℚ) :=
  groups.map (fun kv => ("val/test_score/" ++ kv.1, listMean kv.2))

/-- Lines 122-194: the evaluation pipeline over the batches yielded by
the validation loader: `assert len(val_dataloader) >= 1`, then
accumulate, concatenate, group and average. -/
def runEval {α : Type} (gen : α → α) (rf : α → List (List ℚ))
    (dsOf : α → Option (List String)) (batches : List α) :
    Except String (List (String × ℚ)) :=
  if 1 ≤ batches.length then
    .ok (metricDict (buildGroups (finalScores gen rf batches)
          (finalLabels gen rf dsOf batches)))
  else .error "AssertionError: len(val_dataloader) >= 1"

/-! ### Lemmas about grouping and alignment -/

def optApp (o : Option (List ℚ)) (l : List ℚ) : Option (List ℚ) :=
  match o with
  | some vs => some (vs ++ l)
  | none => if l.isEmpty then none else some l

theorem lookupA_groupPairs_go (ps : List (ℚ × String)) :
    ∀ (acc : List (String × List ℚ)) (d : String),
      lookupA (ps.foldl (fun a p => assocAppend a p.2 p.1) acc) d =
        optApp (lookupA acc d)
          ((ps.filter (fun p => decide (p.2 = d))).map Prod.fst) := by
  induction ps with
  | nil =>
      intro acc d
      rcases ho : lookupA acc d with _ | vs <;> simp [optApp, ho]
  | cons p rest ih =>
      intro acc d
      show lookupA (rest.foldl _ (assocAppend acc p.2 p.1)) d = _
      rw [ih, lookupA_assocAppend]
      by_cases hd : p.2 = d
      · subst hd
        rcases ho : lookupA acc p.2 with _ | vs <;>
          simp [optApp, List.filter_cons, ho]
      · have hd2 : ¬d = p.2 := fun hh => hd hh.symm
        simp [List.filter_cons, hd, hd2]

theorem lookupA_groupPairs (ps : List (ℚ × String)) (d : String) :
    lookupA (groupPairs ps) d =
      if (ps.filter (fun p => decide (p.2 = d))).map Prod.fst = [] then none
      else some ((ps.filter (fun p => decide (p.2 = d))).map Prod.fst) := by
  unfold groupPairs
  rw [lookupA_groupPairs_go]
  generalize (ps.filter (fun p => decide (p.2 = d))).map Prod.fst = fl
  cases fl <;> simp [optApp, lookupA]

theorem range_map_getD_zip (s : List ℚ) :
    ∀ (l : List String), l.length = s.length →
      (List.range s.length).map (fun i => (s.getD i 0, l.getD i "")) = s.zip l := by
  induction s with
  | nil => intro l h; simp
  | cons a s' ih =>
      intro l h
      cases l with
      | nil => simp at h
      | cons b l' =>
          have h' : l'.length = s'.length := by simpa using h
          simp only [List.length_cons, List.range_succ_eq_map, List.map_cons,
            List.map_map, List.getD_cons_zero, List.zip_cons_cons]
          rw [← ih l' h']
          congr 1

theorem buildGroups_eq_groupPairs (s : List ℚ) (l : List String)
    (h : l.length = s.length) :
    buildGroups s l = groupPairs (s.zip l) := by
  unfold buildGroups groupPairs
  rw [← range_map_getD_zip s l h, List.foldl_map]

theorem filter_zip_ne_nil (s : List ℚ) :
    ∀ (l : List String) (d : String), l.length = s.length → d ∈ l →
      (s.zip l).filter (fun p => decide (p.2 = d)) ≠ [] := by
  induction s with
  | nil =>
      intro l d h hd
      cases l with
      | nil => simp at hd
      | cons b l' => simp at h
  | cons a s' ih =>
      intro l d h hd
      cases l with
      | nil => simp at hd
      | cons b l' =>
          have h' : l'.length = s'.length := by simpa using h
          by_cases hbd : b = d
          · subst hbd
            simp [List.filter_cons]
          · have hd' : d ∈ l' := by
              rcases List.mem_cons.mp hd with hh | hh
              · exact absurd hh.symm hbd
              · exact hh
            simpa [List.filter_cons, hbd] using ih l' d h' hd'

theorem getD_map_get {X Y : Type} (l : List X) (f : X → Y) (dy : Y) :
    ∀ (i : Nat) (h : i < l.length), (l.map f).getD i dy = f (l.get ⟨i, h⟩) := by
  induction l with
  | nil => intro i h; simp at h
  | cons x xs ih =>
      intro i h
      cases i with
      | zero => simp
      | succ n =>
          simp only [List.map_cons, List.getD_cons_succ, List.get_cons_succ]
          exact ih n (by simpa using h)

theorem zipAppendEq {X Y : Type} (a : List X) :
    ∀ (b : List Y) (c : List X) (dd : List Y), a.length = b.length →
      (a ++ c).zip (b ++ dd) = a.zip b ++ c.zip dd := by
  induction a with
  | nil =>
      intro b c dd h
      cases b with
      | nil => simp
      | cons y b' => simp at h
  | cons x a' ih =>
      intro b c dd h
      cases b with
      | nil => simp at h
      | cons y b' =>
          have h' : a'.length = b'.length := by simpa using h
          simp [List.zip_cons_cons, ih b' c dd h']

theorem flatten_map_length_congr {γ X Y : Type} (f : γ → List X) (g : γ → List Y) :
    ∀ (l : List γ), (∀ c ∈ l, (f c).length = (g c).length) →
      ((l.map f).flatten).length = ((l.map g).flatten).length := by
  intro l
  induction l with
  | nil => intro _; simp
  | cons c rest ih =>
      intro h
      simp only [List.map_cons, List.flatten_cons, List.length_append]
      rw [h c (List.mem_cons_self _ _), ih (fun c' hc' => h c' (List.mem_cons_of_mem _ hc'))]

theorem zip_map_sum_flatten {α : Type} (rf : α → List (List ℚ)) (lf : α → List String) :
    ∀ (l : List α), (∀ b ∈ l, (lf b).length = (rf b).length) →
      ((((l.map rf).flatten).map List.sum).zip ((l.map lf).flatten)) =
        (l.map (fun b => ((rf b).map List.sum).zip (lf b))).flatten := by
  intro l
  induction l with
  | nil => intro _; simp
  | cons b rest ih =>
      intro h
      simp only [List.map_cons, List.flatten_cons, List.map_append]
      rw [zipAppendEq _ _ _ _ (by simpa using (h b (List.mem_cons_self _ _)).symm),
        ih (fun b' hb' => h b' (List.mem_cons_of_mem _ hb'))]

theorem zip_replicate_const (u : String) :
    ∀ (s : List ℚ), s.zip (List.replicate s.length u) = s.map (fun x => (x, u)) := by
  intro s
  induction s with
  | nil => simp
  | cons a s' ih => simp [List.replicate_succ, List.zip_cons_cons, ih]

theorem groupPairs_const_go (u : String) :
    ∀ (s : List ℚ) (vs : List ℚ),
      (s.map (fun x => (x, u))).foldl (fun a p => assocAppend a p.2 p.1) [(u, vs)] =
        [(u, vs ++ s)] := by
  intro s
  induction s with
  | nil => intro vs; simp
  | cons a s' ih =>
      intro vs
      simp only [List.map_cons, List.foldl_cons]
      have hstep : assocAppend [(u, vs)] u a = [(u, vs ++ [a])] := by
        simp [assocAppend, lookupA]
      rw [hstep, ih (vs ++ [a])]
      simp

theorem groupPairs_const (u : String) (s : List ℚ) (hne : s ≠ []) :
    groupPairs (s.map (fun x => (x, u))) = [(u, s)] := by
  cases s with
  | nil => exact absurd rfl hne
  | cons a s' =>
      unfold groupPairs
      simp only [List.map_cons, List.foldl_cons]
      have hstep : assocAppend [] u a = [(u, [a])] := by
        simp [assocAppend, lookupA]
      rw [hstep, groupPairs_const_go u s' [a]]
      simp

theorem take_len_append {X : Type} (l₁ l₂ : List X) :
    (l₁ ++ l₂).take l₁.length = l₁ := by
  induction l₁ with
  | nil => simp
  | cons x xs ih => simp [ih]

/-! ### Claims C4, C5, C6, C7, C9, C10 about the evaluation loop -/

/-- C4: the final metric report maps each data-source label `d` occurring
in the accumulated labels to the arithmetic mean of exactly the
per-example scores carrying label `d` (the filter of the aligned
score/label pairs), independently of any other group's values: the
grouping dict binds `d` to exactly those scores, and the metric holds
`val/test_score/<d>` with their mean. -/
theorem c4_metric_groups_means {α : Type} (gen : α → α) (rf : α → List (List ℚ))
    (dsOf : α → Option (List String)) (batches : List α)
    (metric : List (String × ℚ)) (d : String)
    (hok : runEval gen rf dsOf batches = .ok metric)
    (halign : ∀ b ∈ evalMerged gen batches,
      ((dsOf b).getD (List.replicate (rf b).length "unknown")).length = (rf b).length)
    (hd : d ∈ finalLabels gen rf dsOf batches) :
    lookupA (buildGroups (finalScores gen rf batches)
        (finalLabels gen rf dsOf batches)) d =
      some ((((finalScores gen rf batches).zip
        (finalLabels gen rf dsOf batches)).filter
          (fun p => decide (p.2 = d))).map Prod.fst) ∧
    ("val/test_score/" ++ d,
      listMean ((((finalScores gen rf batches).zip
        (finalLabels gen rf dsOf batches)).filter
          (fun p => decide (p.2 = d))).map Prod.fst)) ∈ metric := by
  have hlen : (finalLabels gen rf dsOf batches).length =
      (finalScores gen rf batches).length := by
    unfold finalLabels dataSourceLst finalScores rewardTensorLst
    rw [List.length_map]
    exact flatten_map_length_congr _ rf (evalMerged gen batches) halign
  have hb := buildGroups_eq_groupPairs _ _ hlen
  have hfilter_ne :
      ((finalScores gen rf batches).zip
        (finalLabels gen rf dsOf batches)).filter (fun p => decide (p.2 = d)) ≠ [] :=
    filter_zip_ne_nil _ _ d hlen hd
  have hlk := lookupA_groupPairs
    ((finalScores gen rf batches).zip (finalLabels gen rf dsOf batches)) d
  rw [if_neg (by simpa using hfilter_ne)] at hlk
  constructor
  · rw [hb]
    exact hlk
  · have hmem := lookupA_mem _ _ _ hlk
    unfold runEval at hok
    have hbsz : 1 ≤ batches.length := by
      by_contra hc
      rw [if_neg hc] at hok
      exact absurd hok (by simp)
    rw [if_pos hbsz] at hok
    have hmetric : metric = metricDict (buildGroups (finalScores gen rf batches)
        (finalLabels gen rf dsOf batches)) := by
      have h2 := hok
      simp only [Except.ok.injEq] at h2
      exact h2.symm
    rw [hmetric, hb]
    unfold metricDict
    exact List.mem_map.mpr ⟨_, hmem, rfl⟩

def c4Batches : List (List (List ℚ) × Option (List String)) :=
  [([[1], [3]], some ["A", "B"]), ([[5]], some ["A"])]

/-- Witness for C4: with two data sources A (scores 1 and 5) and B
(score 3), the metric holds, for each of A and B, the mean of exactly
that group's scores. -/
theorem c4_witness :
    (lookupA (buildGroups (finalScores id Prod.fst c4Batches)
        (finalLabels id Prod.fst Prod.snd c4Batches)) "A" =
      some ((((finalScores id Prod.fst c4Batches).zip
        (finalLabels id Prod.fst Prod.snd c4Batches)).filter
          (fun p => decide (p.2 = "A"))).map Prod.fst) ∧
    ("val/test_score/" ++ "A",
      listMean ((((finalScores id Prod.fst c4Batches).zip
        (finalLabels id Prod.fst Prod.snd c4Batches)).filter
          (fun p => decide (p.2 = "A"))).map Prod.fst)) ∈
      metricDict (buildGroups (finalScores id Prod.fst c4Batches)
        (finalLabels id Prod.fst Prod.snd c4Batches))) ∧
    ("val/test_score/" ++ "B",
      listMean ((((finalScores id Prod.fst c4Batches).zip
        (finalLabels id Prod.fst Prod.snd c4Batches)).filter
          (fun p => decide (p.2 = "B"))).map Prod.fst)) ∈
      metricDict (buildGroups (finalScores id Prod.fst c4Batches)
        (finalLabels id Prod.fst Prod.snd c4Batches)) := by
  have hok : runEval id Prod.fst Prod.snd c4Batches =
      .ok (metricDict (buildGroups (finalScores id Prod.fst c4Batches)
        (finalLabels id Prod.fst Prod.snd c4Batches))) := by
    unfold runEval
    rw [if_pos (by decide)]
  have hA := c4_metric_groups_means id Prod.fst Prod.snd c4Batches _ "A"
    hok (by decide) (by decide)
  have hB := c4_metric_groups_means id Prod.fst Prod.snd c4Batches _ "B"
    hok (by decide) (by decide)
  exact ⟨hA, hB.2⟩

theorem unpad_pad_map_eq {α β : Type} [Inhabited α] (b : List α) (k : Nat)
    (f : α → β) :
    unpad_dataproto ((pad_dataproto_to_divisor b k).1.map f)
      (pad_dataproto_to_divisor b k).2 = b.map f := by
  unfold pad_dataproto_to_divisor unpad_dataproto
  simp only [List.map_append, List.length_append, List.length_map,
    List.length_replicate]
  rw [Nat.add_sub_cancel]
  have h := take_len_append (b.map f)
    ((List.replicate ((k - b.length % k) % k) (default : α)).map f)
  rw [List.length_map] at h
  exact h

/-- C5: padding a batch of 7 examples to divisor 4 adds exactly one
padding example (making the padded count 8, divisible by 4), and
unpadding after a per-example generation step `f` restores exactly the
original 7 examples, in order; the same round trip also holds at the
divisor 1 actually passed by the loop (line 154). -/
theorem c5_pad_unpad {α β : Type} [Inhabited α] (b : List α) (f : α → β)
    (h7 : b.length = 7) :
    (pad_dataproto_to_divisor b 4).2 = 1 ∧
    (pad_dataproto_to_divisor b 4).1.length = 8 ∧
    (pad_dataproto_to_divisor b 4).1.length % 4 = 0 ∧
    unpad_dataproto ((pad_dataproto_to_divisor b 4).1.map f)
      (pad_dataproto_to_divisor b 4).2 = b.map f ∧
    unpad_dataproto ((pad_dataproto_to_divisor b 1).1.map f)
      (pad_dataproto_to_divisor b 1).2 = b.map f := by
  refine ⟨?_, ?_, ?_, unpad_pad_map_eq b 4 f, unpad_pad_map_eq b 1 f⟩
  · show (4 - b.length % 4) % 4 = 1
    rw [h7]
  · show (b ++ List.replicate ((4 - b.length % 4) % 4) default).length = 8
    simp [h7]
  · show (b ++ List.replicate ((4 - b.length % 4) % 4) default).length % 4 = 0
    simp [h7]

/-- Witness for C5 at the concrete batch `[0..6]` with generation step
`n + 10`. -/
theorem c5_witness :
    (pad_dataproto_to_divisor [0, 1, 2, 3, 4, 5, 6] 4).2 = 1 ∧
    (pad_dataproto_to_divisor [0, 1, 2, 3, 4, 5, 6] 4).1.length = 8 ∧
    (pad_dataproto_to_divisor [0, 1, 2, 3, 4, 5, 6] 4).1.length % 4 = 0 ∧
    unpad_dataproto
      ((pad_dataproto_to_divisor [0, 1, 2, 3, 4, 5, 6] 4).1.map (fun n => n + 10))
      (pad_dataproto_to_divisor [0, 1, 2, 3, 4, 5, 6] 4).2 =
      [0, 1, 2, 3, 4, 5, 6].map (fun n => n + 10) ∧
    unpad_dataproto
      ((pad_dataproto_to_divisor [0, 1, 2, 3, 4, 5, 6] 1).1.map (fun n => n + 10))
      (pad_dataproto_to_divisor [0, 1, 2, 3, 4, 5, 6] 1).2 =
      [0, 1, 2, 3, 4, 5, 6].map (fun n => n + 10) :=
  c5_pad_unpad [0, 1, 2, 3, 4, 5, 6] (fun n => n + 10) rfl

/-- C6: the final per-example reward values used for aggregation
(line 180) are exactly the per-batch row sums of line 171, concatenated
in order, and each position's final score is the sum of that example's
per-token reward row.  The `width` hypothesis mirrors the rectangularity
`torch.cat` requires of the accumulated reward tensors. -/
theorem c6_scores_are_row_sums {α : Type} (gen : α → α) (rf : α → List (List ℚ))
    (batches : List α) (width : Nat)
    (hrect : ∀ t ∈ rewardTensorLst gen rf batches, ∀ row ∈ t, row.length = width) :
    finalScores gen rf batches =
      ((rewardTensorLst gen rf batches).map batchScores).flatten ∧
    ∀ i (h : i < ((rewardTensorLst gen rf batches).flatten).length),
      (finalScores gen rf batches).getD i 0 =
        (((rewardTensorLst gen rf batches).flatten).get ⟨i, h⟩).sum := by
  constructor
  · unfold finalScores batchScores
    rw [List.map_flatten]
  · intro i h
    unfold finalScores
    exact getD_map_get _ _ _ i h

def c6Batches : List (List (List ℚ) × Option (List String)) :=
  [([[1, 2], [3, 4]], none), ([[5, 6]], none)]

/-- Witness for C6 at two concrete batches of width-2 reward rows. -/
theorem c6_witness :
    finalScores id Prod.fst c6Batches =
      ((rewardTensorLst id Prod.fst c6Batches).map batchScores).flatten ∧
    ∀ i (h : i < ((rewardTensorLst id Prod.fst c6Batches).flatten).length),
      (finalScores id Prod.fst c6Batches).getD i 0 =
        (((rewardTensorLst id Prod.fst c6Batches).flatten).get ⟨i, h⟩).sum :=
  c6_scores_are_row_sums id Prod.fst c6Batches 2 (by decide)

/-- C7: with an empty validation loader the run fails on
`assert len(val_dataloader) >= 1` — for every generation function and
reward function alike, so no generation, scoring or aggregation is
performed. -/
theorem c7_empty_loader_asserts {α : Type} (gen : α → α)
    (rf : α → List (List ℚ)) (dsOf : α → Option (List String)) :
    runEval gen rf dsOf [] = .error "AssertionError: len(val_dataloader) >= 1" :=
  rfl

/-- C9: a batch carrying no `data_source` field contributes one
`"unknown"` label per reward-tensor row, and its scores are aggregated
under the `unknown` group without an error: a single such batch yields
exactly the metric `val/test_score/unknown` with the mean of its row
sums. -/
theorem c9_missing_data_source_unknown {α : Type} (gen : α → α)
    (rf : α → List (List ℚ)) (dsOf : α → Option (List String)) (b : α)
    (hds : dsOf (gen b) = none) (hn : rf (gen b) ≠ []) :
    dataSourceLst gen rf dsOf [b] =
      [List.replicate (rf (gen b)).length "unknown"] ∧
    runEval gen rf dsOf [b] =
      .ok [("val/test_score/unknown", listMean (batchScores (rf (gen b))))] := by
  have hlab : dataSourceLst gen rf dsOf [b] =
      [List.replicate (rf (gen b)).length "unknown"] := by
    simp [dataSourceLst, evalMerged, hds]
  refine ⟨hlab, ?_⟩
  unfold runEval
  rw [if_pos (by simp)]
  congr 1
  have hS : finalScores gen rf [b] = batchScores (rf (gen b)) := by
    simp [finalScores, rewardTensorLst, evalMerged, batchScores]
  have hL : finalLabels gen rf dsOf [b] =
      List.replicate (rf (gen b)).length "unknown" := by
    simp [finalLabels, hlab]
  rw [hS, hL]
  have hlen2 : (rf (gen b)).length = (batchScores (rf (gen b))).length := by
    simp [batchScores]
  have hlen : (List.replicate (rf (gen b)).length "unknown").length =
      (batchScores (rf (gen b))).length := by
    simpa using hlen2
  rw [buildGroups_eq_groupPairs _ _ hlen, hlen2, zip_replicate_const,
    groupPairs_const _ _ (by simpa [batchScores] using hn)]
  simp [metricDict]

def c9Batch : List (List ℚ) × Option (List String) := ([[2], [4]], none)

/-- Witness for C9 at a two-example batch with no data-source field. -/
theorem c9_witness :
    dataSourceLst id Prod.fst Prod.snd [c9Batch] =
      [List.replicate (Prod.fst c9Batch).length "unknown"] ∧
    runEval id Prod.fst Prod.snd [c9Batch] =
      .ok [("val/test_score/unknown", listMean (batchScores (Prod.fst c9Batch)))] :=
  c9_missing_data_source_unknown id Prod.fst Prod.snd c9Batch rfl (by decide)

/-- C10: the accumulated reward tensors and label arrays stay
index-aligned: each batch appends one label per reward row (position
`i` of both accumulators comes from the same batch), the concatenated
lists have equal length, the pointwise pairing of final scores with
final labels is the in-order concatenation of the per-batch pairings
(so position `i` of both refer to the same example), and the grouping
loop pairs each score with its own example's label. -/
theorem c10_accumulators_stay_aligned {α : Type} (gen : α → α)
    (rf : α → List (List ℚ)) (dsOf : α → Option (List String)) (batches : List α)
    (halign : ∀ b ∈ evalMerged gen batches,
      ((dsOf b).getD (List.replicate (rf b).length "unknown")).length = (rf b).length) :
    (∀ i (h : i < batches.length),
      ((dataSourceLst gen rf dsOf batches).getD i []).length =
        ((rewardTensorLst gen rf batches).getD i []).length) ∧
    (finalLabels gen rf dsOf batches).length = (finalScores gen rf batches).length ∧
    (finalScores gen rf batches).zip (finalLabels gen rf dsOf batches) =
      ((evalMerged gen batches).map (fun b =>
        (batchScores (rf b)).zip
          ((dsOf b).getD (List.replicate (rf b).length "unknown")))).flatten ∧
    buildGroups (finalScores gen rf batches) (finalLabels gen rf dsOf batches) =
      groupPairs ((finalScores gen rf batches).zip
        (finalLabels gen rf dsOf batches)) := by
  have hlen : (finalLabels gen rf dsOf batches).length =
      (finalScores gen rf batches).length := by
    unfold finalLabels dataSourceLst finalScores rewardTensorLst
    rw [List.length_map]
    exact flatten_map_length_congr _ rf (evalMerged gen batches) halign
  refine ⟨?_, hlen, ?_, buildGroups_eq_groupPairs _ _ hlen⟩
  · intro i h
    have h2 : i < (evalMerged gen batches).length := by
      simpa [evalMerged] using h
    unfold dataSourceLst rewardTensorLst
    rw [getD_map_get _ _ _ i h2, getD_map_get _ _ _ i h2]
    exact halign _ (List.get_mem _ _ _)
  · unfold finalScores rewardTensorLst finalLabels dataSourceLst
    exact zip_map_sum_flatten rf _ (evalMerged gen batches) halign

def c10Batches : List (List (List ℚ) × Option (List String)) :=
  [([[1, 2]], some ["A"]), ([[3], [4]], none)]

/-- Witness for C10 at one labelled and one unlabelled concrete batch. -/
theorem c10_witness :
    (∀ i (h : i < c10Batches.length),
      ((dataSourceLst id Prod.fst Prod.snd c10Batches).getD i []).length =
        ((rewardTensorLst id Prod.fst c10Batches).getD i []).length) ∧
    (finalLabels id Prod.fst Prod.snd c10Batches).length =
      (finalScores id Prod.fst c10Batches).length ∧
    (finalScores id Prod.fst c10Batches).zip
        (finalLabels id Prod.fst Prod.snd c10Batches) =
      ((evalMerged id c10Batches).map (fun b =>
        (batchScores (Prod.fst b)).zip
          ((Prod.snd b).getD
            (List.replicate (Prod.fst b).length "unknown")))).flatten ∧
    buildGroups (finalScores id Prod.fst c10Batches)
        (finalLabels id Prod.fst Prod.snd c10Batches) =
      groupPairs ((finalScores id Prod.fst c10Batches).zip
        (finalLabels id Prod.fst Prod.snd c10Batches)) :=
  c10_accumulators_stay_aligned id Prod.fst Prod.snd c10Batches (by decide)

end EvalOnData
